import Mathlib

/-!
Verification development for the thread optimizer of the `daily-voice`
repository (`src/core/thread-optimizer.js`).

JavaScript strings are modelled as `List Char` (`Str`), string indices and
lengths as `Nat`.  Every function below is a direct translation of the
correspondingly named function of the source file; JS library primitives
(`trim`, `lastIndexOf`, `split`, `replace`, `join`, `JSON.parse`
restricted to arrays of strings, and the regexes used by `extractJSON`)
are modelled explicitly first.
-/

set_option maxRecDepth 8000
set_option linter.unnecessarySeqFocus false
set_option linter.unusedVariables false

abbrev Str := List Char

/-- Whitespace test used by the model of JS `trim` and the regex class
`\s`.  (JS also treats a few exotic Unicode spaces as whitespace; none of
them occur in this development.) -/
def wsChar (c : Char) : Bool :=
  c = ' ' || c = '\t' || c = '\n' || c = '\r' || c = '\x0b' || c = '\x0c'

/-- Model of JS `String.prototype.trim` (both ends). -/
def jsTrim (s : Str) : Str :=
  ((s.dropWhile wsChar).reverse.dropWhile wsChar).reverse

/-- Model of JS `Array.prototype.join(sep)`. -/
def joinSep (sep : Str) : List Str → Str
  | [] => []
  | [x] => x
  | x :: y :: rest => x ++ sep ++ joinSep sep (y :: rest)

/-- Search, downwards from index `i`, for the largest position at which
`pat` occurs in `s`. -/
def lastIdxFromGo (s pat : Str) : Nat → Option Nat
  | 0 => if pat.isPrefixOf s then some 0 else none
  | i + 1 =>
    if pat.isPrefixOf (s.drop (i + 1)) then some (i + 1) else lastIdxFromGo s pat i

/-- Model of JS `s.lastIndexOf(pat, fromIdx)`: the largest index `≤ fromIdx`
at which `pat` occurs (the match may extend past `fromIdx`); `none` models
the JS return value `-1`. -/
def lastIdxFrom (s pat : Str) (fromIdx : Nat) : Option Nat :=
  lastIdxFromGo s pat (min fromIdx s.length)

/-- Worker for `splitOnPat`; the fuel is an upper bound on the number of
characters still to be scanned and never runs out at the call below. -/
def splitOnPatGo (sep : Str) : Nat → Str → Str → List Str
  | _, [], cur => [cur.reverse]
  | 0, s, cur => [cur.reverse ++ s]
  | fuel + 1, c :: rest, cur =>
    if sep ≠ [] && sep.isPrefixOf (c :: rest) then
      cur.reverse :: splitOnPatGo sep fuel ((c :: rest).drop sep.length) []
    else
      splitOnPatGo sep fuel rest (c :: cur)

/-- Model of JS `s.split(sep)` for a string separator. -/
def splitOnPat (sep s : Str) : List Str :=
  splitOnPatGo sep (s.length + 1) s []

/-- Worker for `replaceAllPat`; fuel as in `splitOnPatGo`. -/
def replaceAllGo (pat rep : Str) : Nat → Str → Str
  | _, [] => []
  | 0, s => s
  | fuel + 1, c :: rest =>
    if pat ≠ [] && pat.isPrefixOf (c :: rest) then
      rep ++ replaceAllGo pat rep fuel ((c :: rest).drop pat.length)
    else
      c :: replaceAllGo pat rep fuel rest

/-- Model of JS `s.replace(/pat/g, rep)` for a literal pattern
(non-overlapping, left to right). -/
def replaceAllPat (pat rep s : Str) : Str :=
  replaceAllGo pat rep (s.length + 1) s

/-- Binary digit count, via structural recursion on a fuel argument so
that it reduces inside the kernel (`bitLen n = Nat.log2 n + 1` for
positive `n`). -/
def bitLenGo : Nat → Nat → Nat
  | 0, _ => 0
  | fuel + 1, n => if n = 0 then 0 else bitLenGo fuel (n / 2) + 1

def bitLen (n : Nat) : Nat :=
  bitLenGo n n

/-- Round a natural number to 53 significant bits, ties to even: the
significand rounding performed by IEEE binary64 multiplication. -/
def fl53 (p : Nat) : Nat :=
  if p < 2 ^ 53 then p
  else
    let k := bitLen p - 53
    let q := p / 2 ^ k
    let r := p % 2 ^ k
    if 2 * r > 2 ^ k || (2 * r = 2 ^ k && q % 2 = 1) then (q + 1) * 2 ^ k
    else q * 2 ^ k

/-- Exact value of the JS double expression `m * 0.6` for a natural `m`,
scaled by `2 ^ 53`: the binary64 literal `0.6` is exactly
`5404319552844595 / 2 ^ 53`, and the product rounds back to 53
significant bits.  `jsMul06 m / 2 ^ 53` is the exact real value of the JS
product, so the JS comparison `i > m * 0.6` for a natural `i` is exactly
`i * 2 ^ 53 > jsMul06 m`. -/
def jsMul06 (m : Nat) : Nat :=
  fl53 (m * 5404319552844595)

/-- JSON whitespace (as accepted between tokens by `JSON.parse`). -/
def jsonWs (c : Char) : Bool :=
  c = ' ' || c = '\t' || c = '\n' || c = '\r'

def skipWs (s : Str) : Str :=
  s.dropWhile jsonWs

/-- Value of a hexadecimal digit, for the `\uXXXX` escape. -/
def parseHexDigit (c : Char) : Option Nat :=
  if '0' ≤ c ∧ c ≤ '9' then some (c.toNat - '0'.toNat)
  else if 'a' ≤ c ∧ c ≤ 'f' then some (c.toNat - 'a'.toNat + 10)
  else if 'A' ≤ c ∧ c ≤ 'F' then some (c.toNat - 'A'.toNat + 10)
  else none

/-- The single-character JSON escapes. -/
def escMap (e : Char) : Option Char :=
  if e = '"' then some '"'
  else if e = '\\' then some '\\'
  else if e = '/' then some '/'
  else if e = 'b' then some '\x08'
  else if e = 'f' then some '\x0c'
  else if e = 'n' then some '\n'
  else if e = 'r' then some '\r'
  else if e = 't' then some '\t'
  else none

/-- Body of a JSON string literal, after the opening quote: returns the
decoded characters and the input after the closing quote.  Mirrors the
grammar enforced by `JSON.parse`: raw control characters are rejected,
escapes are `escMap` and `\uXXXX`.  (Lone-surrogate `\uXXXX` escapes,
which Lean `Char` cannot represent, decode to the null character; no
input in this development contains them.) -/
def parseJStrBody : Str → Option (Str × Str)
  | [] => none
  | c :: rest =>
    if c = '"' then some ([], rest)
    else if c = '\\' then
      match rest with
      | e :: rest2 =>
        if e = 'u' then
          match rest2 with
          | h1 :: h2 :: h3 :: h4 :: rest3 =>
            match parseHexDigit h1, parseHexDigit h2, parseHexDigit h3, parseHexDigit h4 with
            | some a, some b, some c2, some d =>
              (parseJStrBody rest3).map fun (s, r) =>
                (Char.ofNat (((a * 16 + b) * 16 + c2) * 16 + d) :: s, r)
            | _, _, _, _ => none
          | _ => none
        else
          match escMap e with
          | some d => (parseJStrBody rest2).map fun (s, r) => (d :: s, r)
          | none => none
      | [] => none
    else if c.toNat < 0x20 then none
    else (parseJStrBody rest).map fun (s, r) => (c :: s, r)

/-- A JSON string literal, including its opening quote. -/
def parseJString (s : Str) : Option (Str × Str) :=
  match s with
  | '"' :: rest => parseJStrBody rest
  | _ => none

/-- Elements of a JSON array of strings, positioned at the first element;
consumes the closing bracket.  The fuel bounds the number of elements and
is chosen large enough at the call site (each element consumes at least
three input characters). -/
def parseJArrayElemsGo : Nat → Str → Option (List Str × Str)
  | 0, _ => none
  | fuel + 1, s =>
    match parseJString s with
    | none => none
    | some (t, rest) =>
      match skipWs rest with
      | c :: r3 =>
        if c = ',' then (parseJArrayElemsGo fuel (skipWs r3)).map fun (ts, r) => (t :: ts, r)
        else if c = ']' then some ([t], r3)
        else none
      | [] => none

/-- Model of `JSON.parse` restricted to the only shape the source accepts:
a JSON array whose elements are all strings.  Returns `none` both when
`JSON.parse` would throw and when it would yield a non-string-array value;
the source treats those two outcomes identically (fall through to the next
strategy). -/
def jsonParseStrArray (s : Str) : Option (List Str) :=
  match skipWs s with
  | c :: r =>
    if c = '[' then
      match skipWs r with
      | c2 :: r2 =>
        if c2 = ']' then (if skipWs r2 = [] then some [] else none)
        else
          match parseJArrayElemsGo (s.length + 1) (c2 :: r2) with
          | some (ts, rest) => if skipWs rest = [] then some ts else none
          | none => none
      | [] => none
    else none
  | [] => none

/-- JSON escape of one character, used by the re-encoding of a sequence
back into the string-array input shape (claim C9). -/
def encChar (c : Char) : Str :=
  if c = '"' ∨ c = '\\' then ['\\', c]
  else if c.toNat < 0x20 then
    ['\\', 'u', '0', '0',
     (Nat.toDigits 16 (c.toNat / 16)).headD '0',
     (Nat.toDigits 16 (c.toNat % 16)).headD '0']
  else [c]

/-- JSON encoding of one string, with quotes. -/
def encStr (t : Str) : Str :=
  '"' :: (t.map encChar).flatten ++ ['"']

/-- Re-encoding of a sequence of units in the string-array input shape:
a JSON array literal with `", "` separators. -/
def jsonEncodeArr (ts : List Str) : Str :=
  '[' :: joinSep [',', ' '] (ts.map encStr) ++ [']']

/-- Character `0x60`; written via `Char.ofNat` because the character does
not occur in any other form in this file. -/
def backtickChar : Char := Char.ofNat 96

/-- Model of the first `replace` of `extractJSON`: the case-insensitive
regex stripping a leading fence marker `(backtick)(backtick)(backtick)jso`,
optional `n`, and trailing whitespace.  Without a match the string is
returned unchanged. -/
def stripFenceStart (l : Str) : Str :=
  match l with
  | a :: b :: c :: d :: e :: f :: rest =>
    if a = backtickChar ∧ b = backtickChar ∧ c = backtickChar ∧
        d.toLower = 'j' ∧ e.toLower = 's' ∧ f.toLower = 'o' then
      match rest with
      | g :: rest2 => if g.toLower = 'n' then rest2.dropWhile wsChar else rest.dropWhile wsChar
      | [] => []
    else l
  | _ => l

/-- Model of the second `replace` of `extractJSON`: strip a trailing fence
marker followed by whitespace at the end of the string. -/
def stripFenceEnd (l : Str) : Str :=
  let r := l.reverse.dropWhile wsChar
  if r.take 3 = [backtickChar, backtickChar, backtickChar] then (r.drop 3).reverse else l

/-- Index of the last `]` in `s`, if any. -/
def lastCloseIdx (s : Str) : Option Nat :=
  match s.reverse.findIdx? (fun c => c = ']') with
  | some rj => some (s.length - 1 - rj)
  | none => none

/-- Model of `extractJSON`: trim, strip fence markers, and take the
(greedy) regex match `\[[\s\S]*\]`, i.e. the substring from the first `[`
to the last `]` when the latter comes after the former. -/
def extractJSON (response : Str) : Option Str :=
  let cleaned := stripFenceEnd (stripFenceStart (jsTrim response))
  match cleaned.findIdx? (fun c => c = '['), lastCloseIdx cleaned with
  | some i, some j => if i < j then some ((cleaned.drop i).take (j - i + 1)) else none
  | _, _ => none

/-- Model of `manualJSONParse`: strip outer brackets, split on the literal
pattern quote-comma-space-quote, clean up the outer quotes of the first
and last part, un-escape quotes, trim, and drop empty parts. -/
def manualJSONParse (jsonString : Str) : Option (List Str) :=
  let content0 := jsTrim jsonString
  let content1 := if content0.take 1 = ['['] then content0.drop 1 else content0
  let content2 := if content1.getLast? = some ']' then content1.dropLast else content1
  let content := jsTrim content2
  let parts := splitOnPat ['"', ',', ' ', '"'] content
  let tweets := parts.enum.map fun (index, part) =>
    let c1 := if index = 0 ∧ part.take 1 = ['"'] then part.drop 1 else part
    let c2 := if index = parts.length - 1 ∧ c1.getLast? = some '"' then c1.dropLast else c1
    jsTrim (replaceAllPat ['\\', '"'] ['"'] c2)
  let filtered := tweets.filter fun t => t.length > 0
  if filtered.length > 0 then some filtered else none

inductive Content where
  | single (s : Str)
  | thread (ts : List Str)
deriving DecidableEq

structure ParseResult where
  success : Bool
  content : Content
  isThread : Bool
deriving DecidableEq

/-- Strategy 1 of `parseThreadJSON`: direct `JSON.parse` when the raw text
starts with `[` and ends with `]`, accepted only for an array of strings
(`JSON.parse` exceptions and non-string-array values both fall through,
modelled uniformly as `none`). -/
def strat1 (rawContent : Str) : Option (List Str) :=
  if rawContent.take 1 = ['['] ∧ rawContent.getLast? = some ']' then
    jsonParseStrArray rawContent
  else none

/-- Strategy 2 of `parseThreadJSON`: extract an embedded array with
`extractJSON`, then `JSON.parse` it as in strategy 1. -/
def strat2 (rawContent : Str) : Option (List Str) :=
  match extractJSON rawContent with
  | some extracted => jsonParseStrArray extracted
  | none => none

/-- Strategy 3 of `parseThreadJSON`: `manualJSONParse` on bracket-delimited
text (the source additionally checks `tweets.length > 0`, which
`manualJSONParse` already guarantees for a `some` result). -/
def strat3 (rawContent : Str) : Option (List Str) :=
  if rawContent.take 1 = ['['] ∧ rawContent.getLast? = some ']' then
    manualJSONParse rawContent
  else none

/-- Model of `parseThreadJSON`: the three strategies in priority order,
first success wins; on total failure the raw content is returned as a
single tweet with `success: false`. -/
def parseThreadJSON (rawContent : Str) : ParseResult :=
  match strat1 rawContent with
  | some parsed => ⟨true, .thread parsed, true⟩
  | none =>
    match strat2 rawContent with
    | some parsed => ⟨true, .thread parsed, true⟩
    | none =>
      match strat3 rawContent with
      | some tweets => ⟨true, .thread tweets, true⟩
      | none => ⟨false, .single rawContent, false⟩

/-- The two warning kinds of `validateTweetLengths`; the source stores
formatted message strings, of which only presence and the underlying
numbers are ever consumed. -/
inductive TweetWarning where
  | tooLongW (index length : Nat)
  | tooShortW (index length : Nat)
deriving DecidableEq

structure TweetAnalysis where
  index : Nat
  tweet : Str
  length : Nat
  warnings : List TweetWarning
deriving DecidableEq

structure Validation where
  valid : Bool
  tweets : List Str
  analysis : List TweetAnalysis
  issues : List TweetWarning
deriving DecidableEq

/-- Model of `validateTweetLengths`, with its hard-coded bounds
`MAX_LENGTH = 280` and `MIN_RECOMMENDED = 100` (the last tweet is allowed
to be short). -/
def validateTweetLengths (tweets : List Str) : Validation :=
  let analysis := tweets.enum.map fun (index, tweet) =>
    let length := tweet.length
    let warnings :=
      (if length > 280 then [TweetWarning.tooLongW index length] else []) ++
      (if length < 100 ∧ index < tweets.length - 1 then [TweetWarning.tooShortW index length] else [])
    TweetAnalysis.mk index tweet length warnings
  let hasIssues := analysis.any fun a => a.warnings.length > 0
  ⟨!hasIssues, tweets, analysis, analysis.flatMap (·.warnings)⟩

/-- Loop of `mergeShortTweets`: left-to-right, a short (below `minLength`)
non-last tweet is merged with its successor when the combination stays
within the hard-coded 280 cap; a merged pair is consumed entirely. -/
def mergeGo (minLength : Nat) : List Str → List Str
  | [] => []
  | [t] => [t]
  | t :: n :: rest =>
    if t.length < minLength ∧ t.length + 1 + n.length ≤ 280 then
      (t ++ ' ' :: n) :: mergeGo minLength rest
    else
      t :: mergeGo minLength (n :: rest)

/-- Model of `mergeShortTweets`. -/
def mergeShortTweets (tweets : List Str) (minLength : Nat) : List Str :=
  if tweets.length = 1 then tweets else mergeGo minLength tweets

/-- Space fallback of the `splitIndex` selection in `smartSplit`:
`lastIndexOf(' ', maxLength)` accepted whenever it is positive, else the
index stays at `maxLength`. -/
def chooseSplitSpace (remaining : Str) (maxLength : Nat) : Nat :=
  match lastIdxFrom remaining [' '] maxLength with
  | some lastSpace => if lastSpace > 0 then lastSpace else maxLength
  | none => maxLength

/-- Comma candidate of the `splitIndex` selection: accepted only beyond
the JS float product `maxLength * 0.6`. -/
def chooseSplitComma (remaining : Str) (maxLength : Nat) : Nat :=
  match lastIdxFrom remaining [',', ' '] maxLength with
  | some lastComma =>
    if jsMul06 maxLength < lastComma * 2 ^ 53 then lastComma + 1
    else chooseSplitSpace remaining maxLength
  | none => chooseSplitSpace remaining maxLength

/-- Full `splitIndex` selection of one `smartSplit` iteration: sentence
boundary, then comma, then space, with `maxLength` as the default. -/
def chooseSplitIndex (remaining : Str) (maxLength : Nat) : Nat :=
  match lastIdxFrom remaining ['.', ' '] maxLength with
  | some lastPeriod =>
    if jsMul06 maxLength < lastPeriod * 2 ^ 53 then lastPeriod + 1
    else chooseSplitComma remaining maxLength
  | none => chooseSplitComma remaining maxLength

/-- While-loop of `smartSplit`.  The fuel bounds the number of iterations;
since every iteration with `maxLength ≥ 1` consumes at least one character
of `remaining`, the fuel chosen in `smartSplit` never runs out (for
`maxLength = 0` the source loop does not terminate on space-free text; the
fuel-out branch mirrors the loop exit). -/
def smartSplitGo (maxLength : Nat) : Nat → Str → List Str → List Str
  | 0, remaining, chunks =>
    chunks.reverse ++ (if remaining.length > 0 then [remaining] else [])
  | fuel + 1, remaining, chunks =>
    if remaining.length ≤ maxLength then
      chunks.reverse ++ (if remaining.length > 0 then [remaining] else [])
    else
      let splitIndex := chooseSplitIndex remaining maxLength
      smartSplitGo maxLength fuel (jsTrim (remaining.drop splitIndex))
        (jsTrim (remaining.take splitIndex) :: chunks)

/-- Model of `smartSplit`. -/
def smartSplit (text : Str) (maxLength : Nat) : List Str :=
  if text.length ≤ maxLength then [text]
  else smartSplitGo maxLength (text.length + 1) text []

/-- Model of `splitLongTweets`, with its hard-coded `MAX_LENGTH = 280`. -/
def splitLongTweets (tweets : List Str) : List Str :=
  tweets.flatMap fun tweet => if tweet.length ≤ 280 then [tweet] else smartSplit tweet 280

/-- Reason tags of `shouldBeThread`; the source stores formatted strings
never consumed by logic. -/
inductive CheckReason where
  | alreadySingle
  | fitsInSingle (totalChars : Nat)
  | lowDensity
  | threadAppropriate (tweetCount totalChars : Nat)
deriving DecidableEq

structure ThreadCheck where
  shouldBeThread : Bool
  reason : CheckReason
  alternativeSingle : Option Str
deriving DecidableEq

/-- Model of `shouldBeThread`, with the hard-coded density thresholds 240
and 260. -/
def shouldBeThread (tweets : List Str) : ThreadCheck :=
  let totalChars := (joinSep [' '] tweets).length
  let tweetCount := tweets.length
  if tweetCount = 1 then ⟨false, .alreadySingle, none⟩
  else if totalChars ≤ 240 then
    ⟨false, .fitsInSingle totalChars, some (joinSep [' '] tweets)⟩
  else if tweetCount = 2 ∧ totalChars ≤ 260 then
    ⟨false, .lowDensity, some (joinSep [' '] tweets)⟩
  else ⟨true, .threadAppropriate tweetCount totalChars, none⟩

/-- Modification tags of the optimizer metadata (strings in the source). -/
inductive ModTag where
  | splitLongTweet
  | compressedToSingle
  | splitLongTweets
  | mergedShortTweets
deriving DecidableEq

inductive OrigFormat where
  | single
  | thread
deriving DecidableEq

/-- Metadata of an optimizer result; fields absent on some source paths are
modelled as `Option`s. -/
structure OptMetadata where
  originalFormat : OrigFormat
  modifications : List ModTag
  tweetCount : Option Nat
  reason : Option CheckReason
  originalTweetCount : Option Nat
  validation : Option Validation
deriving DecidableEq

structure OptimizeResult where
  content : Content
  isThread : Bool
  metadata : OptMetadata
deriving DecidableEq

/-- The options record destructured at the top of `optimizeThread`. -/
structure OptOptions where
  minTweetLength : Nat
  maxTweetLength : Nat
  autoCompress : Bool
deriving DecidableEq

/-- Defaults of `optimizeThread` (also the values passed by every caller
in the repository). -/
def defaultOptions : OptOptions := ⟨100, 280, true⟩

/-- String content of a parse result; the `.thread` case is unreachable on
the path where this is used, since `parseThreadJSON` pairs
`success = false` only with `.single`. -/
def contentStr : Content → Str
  | .single s => s
  | .thread _ => []

/-- Single-tweet path of `optimizeThread` (parse failure, or a parsed
non-thread): split when over `maxTweetLength`, otherwise return as is. -/
def optimizeSingle (c : Str) (options : OptOptions) : OptimizeResult :=
  if c.length > options.maxTweetLength then
    let split := smartSplit c options.maxTweetLength
    ⟨.thread split, true, ⟨.single, [.splitLongTweet], some split.length, none, none, none⟩⟩
  else
    ⟨.single c, false, ⟨.single, [], none, none, none, none⟩⟩

/-- Steps 3–5 of `optimizeThread`: split over-long tweets, merge short
ones, and attach the final validation.  The `merged_short_tweets` tag is
recorded whenever a short non-last tweet exists, whether or not the merge
pass changes anything. -/
def optimizeThreadFix (tweets : List Str) (options : OptOptions) : OptimizeResult :=
  let validation := validateTweetLengths tweets
  let step3 : List Str × List ModTag :=
    if validation.valid = false ∧ validation.analysis.any (fun a => decide (a.length > options.maxTweetLength)) then
      (splitLongTweets tweets, [ModTag.splitLongTweets])
    else (tweets, [])
  let tweets1 := step3.1
  let tooShort := tweets1.enum.any fun p =>
    decide (p.2.length < options.minTweetLength ∧ p.1 < tweets1.length - 1)
  let step4 : List Str × List ModTag :=
    if tooShort then
      (mergeShortTweets tweets1 options.minTweetLength, step3.2 ++ [ModTag.mergedShortTweets])
    else (tweets1, step3.2)
  ⟨.thread step4.1, true,
    ⟨.thread, step4.2, some step4.1.length, none, some tweets.length,
      some (validateTweetLengths step4.1)⟩⟩

/-- Thread path of `optimizeThread`, beginning with the collapse check.
JS truthiness: an *empty* `alternativeSingle` string is falsy, so it does
not trigger the collapse return. -/
def optimizeThreadSeq (tweets : List Str) (options : OptOptions) : OptimizeResult :=
  match options.autoCompress, shouldBeThread tweets with
  | true, ⟨false, rsn, some alt⟩ =>
    if alt.length > 0 then
      ⟨.single alt, false, ⟨.thread, [.compressedToSingle], none, some rsn, some tweets.length, none⟩⟩
    else optimizeThreadFix tweets options
  | _, _ => optimizeThreadFix tweets options

/-- Model of `optimizeThread`, the orchestrator.  The source contains no
Config validation of any kind; the options record is only destructured. -/
def optimizeThread (rawContent : Str) (options : OptOptions) : OptimizeResult :=
  match parseThreadJSON rawContent with
  | ⟨true, Content.thread tweets, true⟩ => optimizeThreadSeq tweets options
  | parsed => optimizeSingle (contentStr parsed.content) options

/-- Non-whitespace characters of a string, in order; used to state the
content-preservation property of the splitter (whose trims and cut points
touch only whitespace). -/
def nonWs (s : Str) : Str :=
  s.filter (fun c => !wsChar c)

/-! ### General lemmas about the model -/

theorem parseThreadJSON_shape (raw : Str) :
    (∃ ts, parseThreadJSON raw = ⟨true, Content.thread ts, true⟩) ∨
      parseThreadJSON raw = ⟨false, Content.single raw, false⟩ := by
  unfold parseThreadJSON
  cases strat1 raw with
  | some ts => exact Or.inl ⟨ts, rfl⟩
  | none =>
    cases strat2 raw with
    | some ts => exact Or.inl ⟨ts, rfl⟩
    | none =>
      cases strat3 raw with
      | some ts => exact Or.inl ⟨ts, rfl⟩
      | none => exact Or.inr rfl

theorem shouldBeThread_alt {ts : List Str} {a : Str}
    (h : (shouldBeThread ts).alternativeSingle = some a) : a.length ≤ 260 := by
  unfold shouldBeThread at h
  dsimp only at h
  split_ifs at h with h1 h2 h3 <;> simp_all <;> omega

theorem optimizeThreadFix_content (ts : List Str) (opts : OptOptions) :
    ∃ us, (optimizeThreadFix ts opts).content = Content.thread us :=
  ⟨_, rfl⟩

theorem optimizeThreadSeq_format (ts : List Str) (opts : OptOptions) :
    (optimizeThreadSeq ts opts).metadata.originalFormat = OrigFormat.thread := by
  unfold optimizeThreadSeq
  split
  · split <;> rfl
  · rfl

theorem optimizeSingle_cases (c : Str) (opts : OptOptions) :
    (c.length > opts.maxTweetLength ∧
        optimizeSingle c opts =
          ⟨.thread (smartSplit c opts.maxTweetLength), true,
            ⟨.single, [.splitLongTweet], some (smartSplit c opts.maxTweetLength).length,
              none, none, none⟩⟩) ∨
      (c.length ≤ opts.maxTweetLength ∧
        optimizeSingle c opts = ⟨.single c, false, ⟨.single, [], none, none, none, none⟩⟩) := by
  unfold optimizeSingle
  by_cases h : c.length > opts.maxTweetLength
  · rw [if_pos h]; exact Or.inl ⟨h, rfl⟩
  · rw [if_neg h]; exact Or.inr ⟨Nat.le_of_not_lt h, rfl⟩

theorem optimizeThread_single_path (raw : Str) (opts : OptOptions)
    (hp : parseThreadJSON raw = ⟨false, Content.single raw, false⟩) :
    optimizeThread raw opts = optimizeSingle raw opts := by
  unfold optimizeThread
  rw [hp]
  rfl

theorem optimizeThread_thread_path (raw : Str) (opts : OptOptions) (ts : List Str)
    (hp : parseThreadJSON raw = ⟨true, Content.thread ts, true⟩) :
    optimizeThread raw opts = optimizeThreadSeq ts opts := by
  unfold optimizeThread
  rw [hp]

/-! ### Claims -/

/-- C1 (amended): for every raw input string and every options record, the
orchestrator `optimizeThread` (a total function of the model, mirroring
that every exception in the source is caught) returns a result whose
content is a string exactly when `isThread` is `false` and an array of
strings exactly when `isThread` is `true`.  The original claim's
non-emptiness is refuted by `c1_empty_input_cex`. -/
theorem c1_result_shape (raw : Str) (opts : OptOptions) :
    (∃ ts, (optimizeThread raw opts).content = Content.thread ts ∧
      (optimizeThread raw opts).isThread = true) ∨
    (∃ s, (optimizeThread raw opts).content = Content.single s ∧
      (optimizeThread raw opts).isThread = false) := by
  rcases parseThreadJSON_shape raw with ⟨ts, hp⟩ | hp
  · rw [optimizeThread_thread_path raw opts ts hp]
    unfold optimizeThreadSeq
    split
    · split
      · exact Or.inr ⟨_, rfl, rfl⟩
      · exact Or.inl ⟨_, rfl, rfl⟩
    · exact Or.inl ⟨_, rfl, rfl⟩
  · rw [optimizeThread_single_path raw opts hp]
    rcases optimizeSingle_cases raw opts with ⟨_, he⟩ | ⟨_, he⟩ <;> rw [he]
    · exact Or.inl ⟨_, rfl, rfl⟩
    · exact Or.inr ⟨_, rfl, rfl⟩

/-- C1 counterexample: on the empty raw string, `optimizeThread` returns a
`Single` result whose content is the empty string — not a non-empty string
nor a non-empty array. -/
theorem c1_empty_input_cex :
    (optimizeThread [] defaultOptions).content = Content.single [] ∧ ([] : Str).length = 0 :=
  ⟨by decide, rfl⟩

/-- C2 counterexample: with the invalid config `{minTweetLength: 300,
maxTweetLength: 200}` of the spec's scenario, `optimizeThread` raises
nothing: it parses and processes the input normally and returns an
ordinary `Single` result with an empty modification list. -/
theorem c2_invalid_config_cex :
    optimizeThread ("hello".toList) ⟨300, 200, true⟩ =
      ⟨Content.single ("hello".toList), false, ⟨.single, [], none, none, none, none⟩⟩ ∧
      200 ≤ 300 :=
  ⟨by decide, by omega⟩

/-- C2 (amended): `optimizeThread` performs no config validation whatever;
even when `minTweetLength ≥ maxTweetLength`, the input is parsed and
processed normally — the result's `originalFormat` still reflects the
outcome of `parseThreadJSON` exactly as for a valid config, and no error
of any kind is signalled. -/
theorem c2_no_config_validation (raw : Str) (minL maxL : Nat) (ac : Bool)
    (h : maxL ≤ minL) :
    (optimizeThread raw ⟨minL, maxL, ac⟩).metadata.originalFormat = OrigFormat.single ↔
      (parseThreadJSON raw).success = false := by
  rcases parseThreadJSON_shape raw with ⟨ts, hp⟩ | hp
  · rw [optimizeThread_thread_path raw _ ts hp, optimizeThreadSeq_format, hp]
    simp
  · rw [optimizeThread_single_path raw _ hp, hp]
    rcases optimizeSingle_cases raw ⟨minL, maxL, ac⟩ with ⟨_, he⟩ | ⟨_, he⟩ <;> rw [he] <;> simp

/-- C2 witness. -/
theorem c2_no_config_validation_witness :
    (optimizeThread ("hello".toList) ⟨300, 200, true⟩).metadata.originalFormat =
      OrigFormat.single :=
  (c2_no_config_validation ("hello".toList) 300 200 true (by omega)).mpr (by decide)

/-- C4 counterexample: with the valid config `{minTweetLength: 10,
maxTweetLength: 200, autoCompress: true}` and a thread of two 115-character
tweets, the collapse decision (whose thresholds 240/260 are hard-coded)
returns a `Single` result of length 231, exceeding `maxTweetLength = 200`
without being split. -/
theorem c4_collapse_exceeds_max_cex :
    (optimizeThread
        ('[' :: '"' :: List.replicate 115 'x' ++ '"' :: ',' :: ' ' :: '"' ::
          List.replicate 115 'y' ++ ['"', ']'])
        ⟨10, 200, true⟩).content =
      Content.single (List.replicate 115 'x' ++ ' ' :: List.replicate 115 'y') ∧
    (List.replicate 115 'x' ++ ' ' :: List.replicate 115 'y' : Str).length = 231 ∧
    200 < 231 :=
  ⟨by decide, by decide, by omega⟩

/-- C4 (amended): every `Single` result of `optimizeThread` has content
length at most `max maxTweetLength 260`: the single-tweet path enforces
`maxTweetLength`, while the collapse path only guarantees the hard-coded
density threshold 260.  For configs with `maxTweetLength ≥ 260` (in
particular the default 280) the original claim holds. -/
theorem c4_single_bound (raw : Str) (opts : OptOptions) (s : Str)
    (h : (optimizeThread raw opts).content = Content.single s) :
    s.length ≤ max opts.maxTweetLength 260 := by
  rcases parseThreadJSON_shape raw with ⟨ts, hp⟩ | hp
  · rw [optimizeThread_thread_path raw opts ts hp] at h
    unfold optimizeThreadSeq at h
    split at h
    · rename_i heq1 heq2
      rename_i rsn alt
      split at h
      · have halt : (shouldBeThread ts).alternativeSingle = some alt := by rw [heq2]
        have hle := shouldBeThread_alt halt
        dsimp only at h
        simp only [Content.single.injEq] at h
        subst h
        exact le_trans hle (le_max_right _ _)
      · rcases optimizeThreadFix_content ts opts with ⟨us, hc⟩
        rw [hc] at h
        simp at h
    · rcases optimizeThreadFix_content ts opts with ⟨us, hc⟩
      rw [hc] at h
      simp at h
  · rw [optimizeThread_single_path raw opts hp] at h
    rcases optimizeSingle_cases raw opts with ⟨hl, he⟩ | ⟨hl, he⟩ <;> rw [he] at h
    · simp at h
    · simp only [Content.single.injEq] at h
      subst h
      exact le_trans hl (le_max_left _ _)

/-- C4 witness. -/
theorem c4_single_bound_witness :
    ("hi".toList : Str).length ≤ max defaultOptions.maxTweetLength 260 :=
  c4_single_bound ("hi".toList) defaultOptions ("hi".toList) (by decide)

/-- C3 (code bug, evaluation at the failing input): a parsed thread whose
single tweet is 312 characters with a sentence boundary exactly at index
280.  `smartSplit` looks for `. ` with `lastIndexOf('. ', maxLength)`,
which may match *at* index `maxLength`, and then cuts at `lastPeriod + 1`:
the first piece is 281 characters — above `maxTweetLength = 280`.  The
result's own final validation metadata flags the returned unit as too
long (`valid = false`), contradicting the module's stated purpose. -/
theorem c3_split_over_cap_eval :
    (optimizeThread
        ('[' :: '"' :: List.replicate 280 'a' ++ '.' :: ' ' :: List.replicate 30 'b' ++ ['"', ']'])
        defaultOptions).content =
      Content.thread [List.replicate 280 'a' ++ ['.'], List.replicate 30 'b'] ∧
    (List.replicate 280 'a' ++ ['.'] : Str).length = 281 ∧
    defaultOptions.maxTweetLength = 280 ∧
    ((optimizeThread
        ('[' :: '"' :: List.replicate 280 'a' ++ '.' :: ' ' :: List.replicate 30 'b' ++ ['"', ']'])
        defaultOptions).metadata.validation.map (·.valid)) = some false :=
  ⟨by decide, by decide, rfl, by decide⟩

theorem joinSep_cons_of_ne (sep x : Str) {l : List Str} (h : l ≠ []) :
    joinSep sep (x :: l) = x ++ sep ++ joinSep sep l := by
  cases l with
  | nil => exact absurd rfl h
  | cons y ys => rfl

theorem mergeGo_ne_nil (m : Nat) (x : Str) (xs : List Str) : mergeGo m (x :: xs) ≠ [] := by
  cases xs with
  | nil => simp [mergeGo]
  | cons y ys => rw [mergeGo]; split <;> simp

theorem mergeGo_mem (m : Nat) :
    ∀ ts : List Str, ∀ u ∈ mergeGo m ts, u ∈ ts ∨ u.length ≤ 280
  | [] => by simp [mergeGo]
  | [t] => by simp [mergeGo]
  | t :: n :: rest => by
    intro u hu
    rw [mergeGo] at hu
    split at hu
    · rename_i hc
      rcases List.mem_cons.mp hu with h | h
      · right
        subst h
        simp only [List.length_append, List.length_cons]
        omega
      · rcases mergeGo_mem m rest u h with h' | h'
        · exact Or.inl (by simp [h'])
        · exact Or.inr h'
    · rcases List.mem_cons.mp hu with h | h
      · exact Or.inl (by simp [h])
      · rcases mergeGo_mem m (n :: rest) u h with h' | h'
        · exact Or.inl (List.mem_cons_of_mem _ h')
        · exact Or.inr h'

theorem mergeGo_joinSep (m : Nat) :
    ∀ ts : List Str, joinSep [' '] (mergeGo m ts) = joinSep [' '] ts
  | [] => rfl
  | [t] => rfl
  | t :: n :: rest => by
    rw [mergeGo]
    split
    · rename_i hc
      cases rest with
      | nil => simp [mergeGo, joinSep]
      | cons r rs =>
        rw [joinSep_cons_of_ne _ _ (mergeGo_ne_nil m r rs), mergeGo_joinSep m (r :: rs),
          joinSep_cons_of_ne _ t (by simp), joinSep_cons_of_ne _ n (by simp)]
        simp
    · rw [joinSep_cons_of_ne _ _ (mergeGo_ne_nil m n rest), mergeGo_joinSep m (n :: rest),
        joinSep_cons_of_ne _ t (by simp)]

/-- C7 (amended): the merge pass `mergeShortTweets` produces only units
that either already occurred in the input or are a merge bounded by the
*hard-coded* cap 280 (not the configured `maxTweetLength`), and it
preserves the order and content of the sequence: joining the output with
single spaces equals joining the input with single spaces.  The original
claim's `maxUnitLength` bound is refuted by `c7_merge_exceeds_max_cex`. -/
theorem c7_merge_cap_and_order (ts : List Str) (m : Nat) :
    (∀ u ∈ mergeShortTweets ts m, u ∈ ts ∨ u.length ≤ 280) ∧
    joinSep [' '] (mergeShortTweets ts m) = joinSep [' '] ts := by
  unfold mergeShortTweets
  split
  · exact ⟨fun u hu => Or.inl hu, rfl⟩
  · exact ⟨mergeGo_mem m ts, mergeGo_joinSep m ts⟩

/-- C7 witness. -/
theorem c7_merge_cap_and_order_witness :
    ("ab cd".toList ∈ (["ab".toList, "cd".toList] : List Str) ∨
      ("ab cd".toList : Str).length ≤ 280) :=
  (c7_merge_cap_and_order ["ab".toList, "cd".toList] 100).1 ("ab cd".toList) (by decide)

/-- C7 counterexample: with the valid config `{minTweetLength: 160,
maxTweetLength: 200, autoCompress: true}`, a 150-character tweet is merged
with a 120-character successor because their 271-character combination is
under the hard-coded 280 — exceeding `maxTweetLength = 200`. -/
theorem c7_merge_exceeds_max_cex :
    (optimizeThread
        ('[' :: '"' :: List.replicate 150 'x' ++ '"' :: ',' :: ' ' :: '"' ::
          List.replicate 120 'y' ++ ['"', ']'])
        ⟨160, 200, true⟩).content =
      Content.thread [List.replicate 150 'x' ++ ' ' :: List.replicate 120 'y'] ∧
    (List.replicate 150 'x' ++ ' ' :: List.replicate 120 'y' : Str).length = 271 ∧
    200 < 271 :=
  ⟨by decide, by decide, by omega⟩

theorem chooseSplitSpace_spec (rem : Str) (m : Nat) :
    (∃ p, lastIdxFrom rem [' '] m = some p ∧ 0 < p ∧ chooseSplitSpace rem m = p) ∨
    (chooseSplitSpace rem m = m ∧ ∀ p, lastIdxFrom rem [' '] m = some p → p = 0) := by
  unfold chooseSplitSpace
  cases hp : lastIdxFrom rem [' '] m with
  | none => exact Or.inr ⟨rfl, by simp⟩
  | some p =>
    dsimp only
    by_cases h0 : p > 0
    · rw [if_pos h0]
      exact Or.inl ⟨p, rfl, h0, rfl⟩
    · rw [if_neg h0]
      refine Or.inr ⟨rfl, ?_⟩
      intro q hq
      injection hq with hq
      omega

theorem chooseSplitComma_spec (rem : Str) (m : Nat) :
    (∃ p, lastIdxFrom rem [',', ' '] m = some p ∧ jsMul06 m < p * 2 ^ 53 ∧
      chooseSplitComma rem m = p + 1) ∨
    (chooseSplitComma rem m = chooseSplitSpace rem m ∧
      ∀ p, lastIdxFrom rem [',', ' '] m = some p → p * 2 ^ 53 ≤ jsMul06 m) := by
  unfold chooseSplitComma
  cases hp : lastIdxFrom rem [',', ' '] m with
  | none => exact Or.inr ⟨rfl, by simp⟩
  | some p =>
    dsimp only
    by_cases ht : jsMul06 m < p * 2 ^ 53
    · rw [if_pos ht]
      exact Or.inl ⟨p, rfl, ht, rfl⟩
    · rw [if_neg ht]
      refine Or.inr ⟨rfl, ?_⟩
      intro q hq
      injection hq with hq
      subst hq
      omega

theorem chooseSplitIndex_spec (rem : Str) (m : Nat) :
    (∃ p, lastIdxFrom rem ['.', ' '] m = some p ∧ jsMul06 m < p * 2 ^ 53 ∧
      chooseSplitIndex rem m = p + 1) ∨
    (chooseSplitIndex rem m = chooseSplitComma rem m ∧
      ∀ p, lastIdxFrom rem ['.', ' '] m = some p → p * 2 ^ 53 ≤ jsMul06 m) := by
  unfold chooseSplitIndex
  cases hp : lastIdxFrom rem ['.', ' '] m with
  | none => exact Or.inr ⟨rfl, by simp⟩
  | some p =>
    dsimp only
    by_cases ht : jsMul06 m < p * 2 ^ 53
    · rw [if_pos ht]
      exact Or.inl ⟨p, rfl, ht, rfl⟩
    · rw [if_neg ht]
      refine Or.inr ⟨rfl, ?_⟩
      intro q hq
      injection hq with hq
      subst hq
      omega

/-- C5 (amended): in one `smartSplit` iteration the cut index is chosen as
follows — a sentence-end or comma candidate is accepted only when it lies
strictly beyond the floating-point product `maxLength * 0.6`, but the
space fallback is accepted at *any* positive index with no 60% condition;
the cut falls back to exactly `maxLength` only when no sentence-end or
comma candidate qualifies and every space within reach is at index 0 (or
there is none).  The original claim's 60% condition on space candidates is
refuted by `c5_space_below_sixty_cex`. -/
theorem c5_cut_selection (rem : Str) (m : Nat) :
    ((∃ p, lastIdxFrom rem ['.', ' '] m = some p ∧ jsMul06 m < p * 2 ^ 53 ∧
        chooseSplitIndex rem m = p + 1) ∨
     (∃ p, lastIdxFrom rem [',', ' '] m = some p ∧ jsMul06 m < p * 2 ^ 53 ∧
        chooseSplitIndex rem m = p + 1) ∨
     (∃ p, lastIdxFrom rem [' '] m = some p ∧ 0 < p ∧ chooseSplitIndex rem m = p) ∨
     chooseSplitIndex rem m = m) ∧
    ((∀ p, lastIdxFrom rem ['.', ' '] m = some p → p * 2 ^ 53 ≤ jsMul06 m) →
     (∀ p, lastIdxFrom rem [',', ' '] m = some p → p * 2 ^ 53 ≤ jsMul06 m) →
     (∀ p, lastIdxFrom rem [' '] m = some p → p = 0) →
     chooseSplitIndex rem m = m) := by
  rcases chooseSplitIndex_spec rem m with ⟨p, hp, ht, he⟩ | ⟨he, hall⟩
  · constructor
    · exact Or.inl ⟨p, hp, ht, he⟩
    · intro H1 _ _
      exact absurd ht (not_lt.mpr (H1 p hp))
  · rcases chooseSplitComma_spec rem m with ⟨p, hp, ht, he2⟩ | ⟨he2, hall2⟩
    · constructor
      · exact Or.inr (Or.inl ⟨p, hp, ht, he.trans he2⟩)
      · intro _ H2 _
        exact absurd ht (not_lt.mpr (H2 p hp))
    · rcases chooseSplitSpace_spec rem m with ⟨p, hp, h0, he3⟩ | ⟨he3, hall3⟩
      · constructor
        · exact Or.inr (Or.inr (Or.inl ⟨p, hp, h0, (he.trans he2).trans he3⟩))
        · intro _ _ H3
          have := H3 p hp
          omega
      · exact ⟨Or.inr (Or.inr (Or.inr ((he.trans he2).trans he3))),
          fun _ _ _ => (he.trans he2).trans he3⟩

/-- C5 witness: on 300 spaceless characters with `maxLength = 280` no
candidate exists, so the cut is exactly at 280. -/
theorem c5_cut_selection_witness :
    chooseSplitIndex (List.replicate 300 'c') 280 = 280 :=
  (c5_cut_selection (List.replicate 300 'c') 280).2 (by decide) (by decide) (by decide)

/-- C5 counterexample: on `"ab "` followed by 300 `c`s with
`maxLength = 280`, the first piece is `"ab"`: the space at index 2 is
accepted although 2 lies far below 60% of 280 (the float product is
exactly 168), and the cut is not made at 280 as the claim would require
when no candidate reaches 60%. -/
theorem c5_space_below_sixty_cex :
    (smartSplit ('a' :: 'b' :: ' ' :: List.replicate 300 'c') 280).head? = some ("ab".toList) ∧
    ("ab".toList : Str).length = 2 ∧
    2 * 2 ^ 53 < jsMul06 280 ∧ (2 : Nat) ≠ 280 :=
  ⟨by decide, by decide, by decide, by decide⟩

theorem nonWs_append (a b : Str) : nonWs (a ++ b) = nonWs a ++ nonWs b := by
  simp [nonWs]

theorem nonWs_reverse (l : Str) : nonWs l.reverse = (nonWs l).reverse := by
  simp [nonWs]

theorem nonWs_dropWhile (l : Str) : nonWs (l.dropWhile wsChar) = nonWs l := by
  induction l with
  | nil => rfl
  | cons c cs ih =>
    by_cases h : wsChar c
    · simp [nonWs, List.dropWhile_cons, h, List.filter_cons] at ih ⊢
      exact ih
    · simp [nonWs, List.dropWhile_cons, h, List.filter_cons]

theorem nonWs_jsTrim (s : Str) : nonWs (jsTrim s) = nonWs s := by
  unfold jsTrim
  rw [nonWs_reverse, nonWs_dropWhile, nonWs_reverse, List.reverse_reverse, nonWs_dropWhile]

theorem nonWs_joinSep : ∀ l : List Str, nonWs (joinSep [' '] l) = (l.map nonWs).flatten
  | [] => rfl
  | [x] => by simp [joinSep]
  | x :: y :: rest => by
    rw [joinSep, nonWs_append, nonWs_append, nonWs_joinSep (y :: rest)]
    simp [nonWs, wsChar]

theorem smartSplitGo_nonWs (m : Nat) :
    ∀ (fuel : Nat) (rem : Str) (acc : List Str),
      ((smartSplitGo m fuel rem acc).map nonWs).flatten =
        ((acc.reverse).map nonWs).flatten ++ nonWs rem := by
  intro fuel
  induction fuel with
  | zero =>
    intro rem acc
    rw [smartSplitGo]
    by_cases h : rem.length > 0
    · rw [if_pos h]
      simp
    · rw [if_neg h]
      have hr : rem = [] := List.length_eq_zero.mp (by omega)
      subst hr
      simp [nonWs]
  | succ fuel ih =>
    intro rem acc
    rw [smartSplitGo]
    dsimp only
    by_cases h : rem.length ≤ m
    · rw [if_pos h]
      by_cases h2 : rem.length > 0
      · rw [if_pos h2]
        simp
      · rw [if_neg h2]
        have hr : rem = [] := List.length_eq_zero.mp (by omega)
        subst hr
        simp [nonWs]
    · rw [if_neg h, ih]
      rw [List.reverse_cons, List.map_append, List.flatten_append]
      simp only [List.map_cons, List.map_nil, List.flatten_cons, List.flatten_nil,
        List.append_nil, nonWs_jsTrim]
      rw [List.append_assoc, ← nonWs_append, List.take_append_drop]

/-- C6 (amended): rejoining the pieces produced by `smartSplit` with one
space at each cut preserves exactly the sequence of non-whitespace
characters of the original unit, in order.  Literal equality — the
original claim — fails: a cut forced at `maxLength` (no boundary
candidate) inserts a space that was not present, and boundary whitespace
runs are normalised; see `c6_rejoin_not_exact_cex`. -/
theorem c6_split_preserves_content (text : Str) (m : Nat) :
    nonWs (joinSep [' '] (smartSplit text m)) = nonWs text := by
  unfold smartSplit
  by_cases h : text.length ≤ m
  · rw [if_pos h]
    rfl
  · rw [if_neg h, nonWs_joinSep, smartSplitGo_nonWs]
    simp

/-- C6 counterexample: 281 `a`s split with `maxLength = 280` produce
`['a'*280, 'a']`; rejoined with one space this is `'a'*280 ++ " a"`, which
differs from the original (a space was invented mid-word). -/
theorem c6_rejoin_not_exact_cex :
    joinSep [' '] (smartSplit (List.replicate 281 'a') 280) ≠ List.replicate 281 'a' := by
  decide

theorem joinSep_len_pos {ts : List Str} (h2 : 2 ≤ ts.length) :
    0 < (joinSep [' '] ts).length := by
  match ts, h2 with
  | x :: y :: rest, _ =>
    rw [joinSep]
    simp

theorem shouldBeThread_two_le {ts : List Str} (h2 : 2 ≤ ts.length) :
    (((joinSep [' '] ts).length ≤ 240 ∨ (ts.length = 2 ∧ (joinSep [' '] ts).length ≤ 260)) ∧
      ∃ r, shouldBeThread ts = ⟨false, r, some (joinSep [' '] ts)⟩) ∨
    (¬ ((joinSep [' '] ts).length ≤ 240 ∨ (ts.length = 2 ∧ (joinSep [' '] ts).length ≤ 260)) ∧
      ∃ r, shouldBeThread ts = ⟨true, r, none⟩) := by
  unfold shouldBeThread
  dsimp only
  have hne : ¬ ts.length = 1 := by omega
  rw [if_neg hne]
  by_cases hc1 : (joinSep [' '] ts).length ≤ 240
  · rw [if_pos hc1]
    exact Or.inl ⟨Or.inl hc1, _, rfl⟩
  · rw [if_neg hc1]
    by_cases hc2 : ts.length = 2 ∧ (joinSep [' '] ts).length ≤ 260
    · rw [if_pos hc2]
      exact Or.inl ⟨Or.inr hc2, _, rfl⟩
    · rw [if_neg hc2]
      exact Or.inr ⟨by tauto, _, rfl⟩

/-- C8 (confirmed): when the parser yields a sequence of at least 2 units
and `autoCompress` is enabled, `optimizeThread` collapses to a `Single`
(joining all units with single spaces, sole transformation
`compressed_to_single`) exactly when `total = (joinSep " " ts).length` —
the sum of the unit lengths plus one space per join — is at most 240, or
the sequence has exactly 2 units and `total ≤ 260`; otherwise the result
stays a multi-unit thread. -/
theorem c8_collapse_decision (raw : Str) (opts : OptOptions) (ts : List Str)
    (hp : parseThreadJSON raw = ⟨true, Content.thread ts, true⟩)
    (h2 : 2 ≤ ts.length) (hac : opts.autoCompress = true) :
    (((joinSep [' '] ts).length ≤ 240 ∨ (ts.length = 2 ∧ (joinSep [' '] ts).length ≤ 260)) →
      ∃ r, optimizeThread raw opts =
        ⟨Content.single (joinSep [' '] ts), false,
          ⟨.thread, [.compressedToSingle], none, some r, some ts.length, none⟩⟩) ∧
    (¬ ((joinSep [' '] ts).length ≤ 240 ∨ (ts.length = 2 ∧ (joinSep [' '] ts).length ≤ 260)) →
      (optimizeThread raw opts).isThread = true ∧
        ∃ us, (optimizeThread raw opts).content = Content.thread us) := by
  rw [optimizeThread_thread_path raw opts ts hp]
  have hpos : 0 < (joinSep [' '] ts).length := joinSep_len_pos h2
  rcases shouldBeThread_two_le h2 with ⟨hc, r, hsb⟩ | ⟨hc, r, hsb⟩
  · constructor
    · intro _
      refine ⟨r, ?_⟩
      unfold optimizeThreadSeq
      rw [hac, hsb]
      dsimp only
      rw [if_pos hpos]
    · intro hn
      exact absurd hc hn
  · constructor
    · intro hcond
      exact absurd hcond hc
    · intro _
      unfold optimizeThreadSeq
      rw [hac, hsb]
      exact ⟨rfl, _, rfl⟩

/-- C8 witness: the spec's scenario 1. -/
theorem c8_collapse_decision_witness :
    ∃ r, optimizeThread ("[\x22Short line one.\x22, \x22Short line two.\x22]".toList)
        defaultOptions =
      ⟨Content.single (joinSep [' '] ["Short line one.".toList, "Short line two.".toList]),
        false,
        ⟨.thread, [.compressedToSingle], none, some r,
          some (["Short line one.".toList, "Short line two.".toList] : List Str).length,
          none⟩⟩ :=
  (c8_collapse_decision _ defaultOptions
      ["Short line one.".toList, "Short line two.".toList]
      (by decide) (by decide) rfl).1 (by decide)

/-- C10 (confirmed): `parseThreadJSON` is total (never throws — all
`JSON.parse` exceptions are caught), tries its three strategies in strict
priority order with the first success winning, and when every structured
strategy fails it reports `success: false` with the entire raw text
verbatim as the single unit of content — no error is ever signalled to
the caller and no content is lost. -/
theorem c10_parser_priority (raw : Str) :
    ((parseThreadJSON raw).success = false →
      parseThreadJSON raw = ⟨false, Content.single raw, false⟩) ∧
    (∀ ts, strat1 raw = some ts → parseThreadJSON raw = ⟨true, Content.thread ts, true⟩) ∧
    (strat1 raw = none → ∀ ts, strat2 raw = some ts →
      parseThreadJSON raw = ⟨true, Content.thread ts, true⟩) ∧
    (strat1 raw = none → strat2 raw = none → ∀ ts, strat3 raw = some ts →
      parseThreadJSON raw = ⟨true, Content.thread ts, true⟩) ∧
    ((parseThreadJSON raw).success = false ↔
      strat1 raw = none ∧ strat2 raw = none ∧ strat3 raw = none) := by
  unfold parseThreadJSON
  cases h1 : strat1 raw with
  | some ts => refine ⟨?_, ?_, ?_, ?_, ?_⟩ <;> simp_all
  | none =>
    cases h2 : strat2 raw with
    | some ts => refine ⟨?_, ?_, ?_, ?_, ?_⟩ <;> simp_all
    | none =>
      cases h3 : strat3 raw with
      | some ts => refine ⟨?_, ?_, ?_, ?_, ?_⟩ <;> simp_all
      | none => refine ⟨?_, ?_, ?_, ?_, ?_⟩ <;> simp_all

/-- C10 witness: a plain-text failure case returns the raw text verbatim,
and a direct-decode success case wins with strategy 1. -/
theorem c10_parser_priority_witness :
    parseThreadJSON ("hello".toList) = ⟨false, Content.single ("hello".toList), false⟩ ∧
    parseThreadJSON ("[\x22a\x22]".toList) = ⟨true, Content.thread ["a".toList], true⟩ :=
  ⟨(c10_parser_priority ("hello".toList)).1 (by decide),
   (c10_parser_priority ("[\x22a\x22]".toList)).2.1 ["a".toList] (by decide)⟩

theorem parseHexDigit_toDigits :
    ∀ k, k < 16 → parseHexDigit ((Nat.toDigits 16 k).headD '0') = some k := by
  decide

theorem parseJStrBody_enc (rest : Str) :
    ∀ s : Str, parseJStrBody ((s.map encChar).flatten ++ '"' :: rest) = some (s, rest)
  | [] => by
    rw [List.map_nil, List.flatten_nil, List.nil_append, parseJStrBody.eq_def]
    dsimp only
    rw [if_pos rfl]
  | c :: cs => by
    have ih := parseJStrBody_enc rest cs
    simp only [List.map_cons, List.flatten_cons, List.append_assoc]
    by_cases h1 : c = '"' ∨ c = '\\'
    · have henc : encChar c = ['\\', c] := by
        unfold encChar
        rw [if_pos h1]
      have hesc : escMap c = some c := by
        rcases h1 with h | h <;> subst h <;> decide
      have hne : ¬ c = 'u' := by
        rcases h1 with h | h <;> subst h <;> decide
      rw [henc]
      simp only [List.cons_append, List.nil_append]
      rw [parseJStrBody.eq_def]
      dsimp only
      rw [if_neg (by decide : ¬('\\' : Char) = '"'), if_pos rfl]
      try dsimp only
      rw [if_neg hne, hesc]
      try dsimp only
      rw [ih]
      rfl
    · push_neg at h1
      by_cases h2 : c.toNat < 0x20
      · have henc : encChar c =
            ['\\', 'u', '0', '0',
              (Nat.toDigits 16 (c.toNat / 16)).headD '0',
              (Nat.toDigits 16 (c.toNat % 16)).headD '0'] := by
          unfold encChar
          rw [if_neg (by tauto), if_pos h2]
        rw [henc]
        have hd : c.toNat / 16 < 16 := by omega
        have hm : c.toNat % 16 < 16 := Nat.mod_lt _ (by omega)
        have hhi := parseHexDigit_toDigits _ hd
        have hlo := parseHexDigit_toDigits _ hm
        have h0 : parseHexDigit '0' = some 0 := by decide
        simp only [List.cons_append, List.nil_append]
        rw [parseJStrBody.eq_def]
        dsimp only
        rw [if_neg (by decide : ¬('\\' : Char) = '"'), if_pos rfl]
        try dsimp only
        rw [if_pos rfl]
        try dsimp only
        rw [h0, hhi, hlo]
        try dsimp only
        rw [ih]
        have harith : ((0 * 16 + 0) * 16 + c.toNat / 16) * 16 + c.toNat % 16 = c.toNat := by
          omega
        try simp only [Option.map]
        rw [harith, Char.ofNat_toNat]
      · have henc : encChar c = [c] := by
          unfold encChar
          rw [if_neg (by tauto), if_neg h2]
        rw [henc]
        simp only [List.cons_append, List.nil_append]
        rw [parseJStrBody.eq_def]
        dsimp only
        rw [if_neg h1.1, if_neg h1.2, if_neg (by omega), ih]
        rfl

theorem parseJString_enc (t rest : Str) :
    parseJString (encStr t ++ rest) = some (t, rest) := by
  have hshape : encStr t ++ rest = '"' :: ((t.map encChar).flatten ++ '"' :: rest) := by
    simp [encStr]
  rw [hshape, parseJString]
  exact parseJStrBody_enc rest t

theorem skipWs_cons_of_not (c : Char) (l : Str) (h : jsonWs c = false) :
    skipWs (c :: l) = c :: l := by
  simp [skipWs, List.dropWhile_cons, h]

theorem skipWs_space (l : Str) : skipWs (' ' :: l) = skipWs l := by
  have h : jsonWs ' ' = true := by decide
  simp [skipWs, List.dropWhile_cons, h]

theorem encStr_two_le (t : Str) : 2 ≤ (encStr t).length := by
  simp [encStr]

theorem joinSep_enc_count : ∀ ts : List Str, ts.length ≤ (joinSep [',', ' '] (ts.map encStr)).length
  | [] => by simp [joinSep]
  | [x] => by
    simp only [List.map_cons, List.map_nil, joinSep, List.length_cons, List.length_nil]
    have := encStr_two_le x
    omega
  | x :: y :: rest => by
    have ih := joinSep_enc_count (y :: rest)
    have hx := encStr_two_le x
    simp only [List.map_cons, joinSep, List.length_cons, List.length_append] at ih ⊢
    omega

theorem joinSep_enc_head (u : Str) (l : List Str) :
    ∃ Y, joinSep [',', ' '] (encStr u :: l) = '"' :: Y := by
  cases l with
  | nil => exact ⟨(u.map encChar).flatten ++ ['"'], by simp [joinSep, encStr]⟩
  | cons v vs =>
    refine ⟨(u.map encChar).flatten ++ ['"'] ++ ([',', ' '] ++ joinSep [',', ' '] (v :: vs)), ?_⟩
    simp [joinSep, encStr]

theorem parseJArrayElemsGo_enc :
    ∀ (us : List Str) (t : Str) (fuel : Nat), us.length < fuel →
      parseJArrayElemsGo fuel (joinSep [',', ' '] ((t :: us).map encStr) ++ [']']) =
        some (t :: us, []) := by
  intro us
  induction us with
  | nil =>
    intro t fuel hf
    obtain ⟨fuel, rfl⟩ : ∃ f, fuel = f + 1 := ⟨fuel - 1, by omega⟩
    rw [parseJArrayElemsGo]
    simp only [List.map_cons, List.map_nil, joinSep]
    rw [parseJString_enc t [']']]
    dsimp only
    rw [skipWs_cons_of_not ']' [] (by decide)]
    dsimp only
    rw [if_neg (by decide : ¬(']' : Char) = ','), if_pos rfl]
  | cons u us ih =>
    intro t fuel hf
    obtain ⟨fuel, rfl⟩ : ∃ f, fuel = f + 1 := ⟨fuel - 1, by omega⟩
    simp only [List.map_cons] at ih
    rw [parseJArrayElemsGo]
    simp only [List.map_cons, joinSep]
    rw [List.append_assoc, List.append_assoc, parseJString_enc]
    dsimp only
    simp only [List.cons_append, List.nil_append]
    rw [skipWs_cons_of_not ',' _ (by decide)]
    dsimp only
    rw [if_pos rfl, skipWs_space]
    obtain ⟨Y, hY⟩ := joinSep_enc_head u (List.map encStr us)
    rw [hY, List.cons_append, skipWs_cons_of_not '"' _ (by decide), ← List.cons_append, ← hY,
      ih u fuel (by simp only [List.length_cons] at hf; omega)]
    rfl

theorem jsonParseStrArray_enc (ts : List Str) :
    jsonParseStrArray (jsonEncodeArr ts) = some ts := by
  cases ts with
  | nil => decide
  | cons t us =>
    unfold jsonParseStrArray jsonEncodeArr
    simp only [List.map_cons]
    rw [List.cons_append, skipWs_cons_of_not '[' _ (by decide)]
    dsimp only
    rw [if_pos rfl]
    obtain ⟨Y, hY⟩ := joinSep_enc_head t (List.map encStr us)
    rw [hY, List.cons_append, skipWs_cons_of_not '"' _ (by decide)]
    dsimp only
    rw [if_neg (by decide : ¬('"' : Char) = ']'), ← List.cons_append, ← hY]
    have hcount := joinSep_enc_count (t :: us)
    simp only [List.map_cons] at hcount
    have hb : us.length <
        ('[' :: (joinSep [',', ' '] (encStr t :: List.map encStr us) ++ [']'])).length + 1 := by
      simp only [List.length_cons, List.length_append] at hcount ⊢
      omega
    have harr := parseJArrayElemsGo_enc us t _ hb
    simp only [List.map_cons] at harr
    rw [harr]
    rfl

theorem parseThreadJSON_enc (ts : List Str) :
    parseThreadJSON (jsonEncodeArr ts) = ⟨true, Content.thread ts, true⟩ := by
  have hguard : (jsonEncodeArr ts).take 1 = ['['] ∧ (jsonEncodeArr ts).getLast? = some ']' := by
    constructor
    · rfl
    · show (('[' :: joinSep [',', ' '] (ts.map encStr)) ++ [']']).getLast? = some ']'
      exact List.getLast?_concat _
  have h1 : strat1 (jsonEncodeArr ts) = some ts := by
    unfold strat1
    rw [if_pos hguard]
    exact jsonParseStrArray_enc ts
  unfold parseThreadJSON
  rw [h1]

theorem optimizeThreadSeq_mods_nil {ts : List Str} {opts : OptOptions}
    (h : (optimizeThreadSeq ts opts).metadata.modifications = []) :
    optimizeThreadSeq ts opts = optimizeThreadFix ts opts := by
  rcases hsb : shouldBeThread ts with ⟨b, r, a⟩
  unfold optimizeThreadSeq at h ⊢
  rw [hsb] at h ⊢
  cases hab : opts.autoCompress
  · rfl
  · rw [hab] at h
    cases b with
    | false =>
      cases a with
      | none => rfl
      | some alt =>
        dsimp only at h ⊢
        by_cases hl : alt.length > 0
        · rw [if_pos hl] at h
          simp at h
        · rw [if_neg hl]
    | true => rfl

theorem optimizeThreadFix_mods_nil {ts : List Str} {opts : OptOptions}
    (h : (optimizeThreadFix ts opts).metadata.modifications = []) :
    optimizeThreadFix ts opts =
      ⟨Content.thread ts, true,
        ⟨.thread, [], some ts.length, none, some ts.length,
          some (validateTweetLengths ts)⟩⟩ := by
  unfold optimizeThreadFix at h ⊢
  dsimp only at h ⊢
  split at h
  · split at h <;> simp at h
  · rename_i h1
    rw [if_neg h1]
    dsimp only at h ⊢
    split at h
    · simp at h
    · rename_i h2
      rw [if_neg h2]

/-- C9 (amended): general idempotence fails (see `c9_rerun_not_empty_cex`),
but runs that report no modifications are fixpoints: whenever
`optimizeThread` returns with an empty `modifications` list, re-running it
on its own output re-encoded in the input shape — the content itself for a
`Single`, the JSON string-array encoding for a `Sequence` — again returns
an empty `modifications` list. -/
theorem c9_fixpoint (raw : Str) (opts : OptOptions)
    (h : (optimizeThread raw opts).metadata.modifications = []) :
    (∀ s, (optimizeThread raw opts).content = Content.single s →
      (optimizeThread s opts).metadata.modifications = []) ∧
    (∀ ts, (optimizeThread raw opts).content = Content.thread ts →
      (optimizeThread (jsonEncodeArr ts) opts).metadata.modifications = []) := by
  rcases parseThreadJSON_shape raw with ⟨ts0, hp⟩ | hp
  · rw [optimizeThread_thread_path raw opts ts0 hp] at h ⊢
    have hseq := optimizeThreadSeq_mods_nil h
    rw [hseq] at h ⊢
    have hfix := optimizeThreadFix_mods_nil h
    rw [hfix]
    constructor
    · intro s hs
      simp at hs
    · intro ts hts
      have hts0 : ts = ts0 := by simpa using hts.symm
      subst hts0
      rw [optimizeThread_thread_path _ opts ts (parseThreadJSON_enc ts), hseq, hfix]
  · rw [optimizeThread_single_path raw opts hp] at h ⊢
    rcases optimizeSingle_cases raw opts with ⟨hl, he⟩ | ⟨hl, he⟩ <;> rw [he] at h ⊢
    · simp at h
    · constructor
      · intro s hs
        simp only [Content.single.injEq] at hs
        subst hs
        rw [optimizeThread_single_path raw opts hp, he]
      · intro ts hts
        simp at hts

/-- C9 witness: a clean two-tweet thread (no modifications) re-encoded as
a JSON array is re-parsed to the same thread and again produces no
modifications. -/
theorem c9_fixpoint_witness :
    (optimizeThread (jsonEncodeArr [List.replicate 150 'x', List.replicate 150 'y'])
        defaultOptions).metadata.modifications = [] :=
  (c9_fixpoint
      ('[' :: '"' :: List.replicate 150 'x' ++ '"' :: ',' :: ' ' :: '"' ::
        List.replicate 150 'y' ++ ['"', ']'])
      defaultOptions (by decide)).2
    [List.replicate 150 'x', List.replicate 150 'y'] (by decide)

/-- C9 counterexample: `optimize` of `"ab "` + 300 `c`s splits into
`["ab", 'c'*280, 'c'*20]`; re-running on the re-encoded output flags the
short first unit and records `merged_short_tweets` (although the merge
changes nothing), so the second run's transformation list is not empty. -/
theorem c9_rerun_not_empty_cex :
    (optimizeThread ('a' :: 'b' :: ' ' :: List.replicate 300 'c') defaultOptions).content =
      Content.thread ["ab".toList, List.replicate 280 'c', List.replicate 20 'c'] ∧
    (optimizeThread ('a' :: 'b' :: ' ' :: List.replicate 300 'c')
        defaultOptions).metadata.modifications = [ModTag.splitLongTweet] ∧
    (optimizeThread (jsonEncodeArr ["ab".toList, List.replicate 280 'c', List.replicate 20 'c'])
        defaultOptions).metadata.modifications = [ModTag.mergedShortTweets] ∧
    [ModTag.mergedShortTweets] ≠ ([] : List ModTag) :=
  ⟨by decide, by decide, by decide, by decide⟩
